import Mathlib

/-!
Verification development for the DepthCutFront depth-slicing core
(`src/js/depth-cutter.js`, `src/js/image-processor.js`).

Numbers are modelled as exact rationals; `Math.round` is rounding half
toward positive infinity.
-/

/-- JavaScript `Math.round`: round half toward positive infinity. -/
def jsRound (q : ℚ) : ℤ := ⌊q + 1 / 2⌋

/-- `Math.round(q * 10) / 10`: round to one decimal, as used throughout
`generateDepthRanges`. -/
def roundTenth (q : ℚ) : ℚ := (jsRound (q * 10) : ℚ) / 10

theorem jsRound_intCast (k : ℤ) : jsRound (k : ℚ) = k := by
  unfold jsRound
  rw [add_comm, Int.floor_add_int]
  norm_num

theorem jsRound_mono {p q : ℚ} (h : p ≤ q) : jsRound p ≤ jsRound q := by
  exact Int.floor_le_floor (by linarith)

theorem jsRound_nonneg {q : ℚ} (h : 0 ≤ q) : 0 ≤ jsRound q := by
  unfold jsRound
  exact Int.le_floor.mpr (by push_cast; linarith)

theorem roundTenth_mono {p q : ℚ} (h : p ≤ q) : roundTenth p ≤ roundTenth q := by
  unfold roundTenth
  have := jsRound_mono (mul_le_mul_of_nonneg_right h (by norm_num : (0:ℚ) ≤ 10))
  have hcast : (jsRound (p * 10) : ℚ) ≤ (jsRound (q * 10) : ℚ) := by exact_mod_cast this
  linarith

theorem roundTenth_nonneg {q : ℚ} (h : 0 ≤ q) : 0 ≤ roundTenth q := by
  unfold roundTenth
  have : 0 ≤ jsRound (q * 10) := jsRound_nonneg (by positivity)
  have hcast : (0 : ℚ) ≤ (jsRound (q * 10) : ℚ) := by exact_mod_cast this
  linarith

/-- One-decimal rounding fixes every integer multiple of `1/10`. -/
theorem roundTenth_int_div (k : ℤ) : roundTenth ((k : ℚ) / 10) = (k : ℚ) / 10 := by
  unfold roundTenth
  rw [div_mul_cancel₀ _ (by norm_num : (10:ℚ) ≠ 0), jsRound_intCast]

theorem roundTenth_exists_int (q : ℚ) : ∃ k : ℤ, roundTenth q = (k : ℚ) / 10 :=
  ⟨jsRound (q * 10), rfl⟩

theorem roundTenth_idem (q : ℚ) : roundTenth (roundTenth q) = roundTenth q := by
  obtain ⟨k, hk⟩ := roundTenth_exists_int q
  rw [hk, roundTenth_int_div]

theorem roundTenth_intCast (k : ℤ) : roundTenth (k : ℚ) = (k : ℚ) := by
  have h := roundTenth_int_div (10 * k)
  have : ((10 * k : ℤ) : ℚ) / 10 = (k : ℚ) := by push_cast; ring
  rwa [this] at h

example : jsRound (500000 / 1001) = 500 := by norm_num [jsRound]

example : jsRound (501000 / 1001) = 500 := by norm_num [jsRound]

example : roundTenth (50000 / 1001) = 50 := by norm_num [roundTenth, jsRound]

/-- A depth range `{min, max}` as pushed by `generateDepthRanges`
(`src/js/depth-cutter.js:40`). -/
structure DepthRange where
  min : ℚ
  max : ℚ
deriving DecidableEq, Repr

instance : Inhabited DepthRange := ⟨⟨0, 0⟩⟩

/-- Body of the loop in `generateDepthRanges` (`src/js/depth-cutter.js:27-41`)
for index `i`: compute the rounded bin bounds, extend every non-final `max` by
`depthOverlap` clamped at 100, and round both bounds to one decimal again. -/
def mkRange (layerCount : ℕ) (depthOverlap : ℚ) (i : ℕ) : DepthRange :=
  let stepSize : ℚ := 100 / layerCount
  let minDepth : ℚ := roundTenth (stepSize * i)
  let maxDepth : ℚ := roundTenth (stepSize * (i + 1))
  let maxDepth : ℚ :=
    if i < layerCount - 1 then min 100 (maxDepth + depthOverlap) else maxDepth
  ⟨roundTenth minDepth, roundTenth maxDepth⟩

/-- `generateDepthRanges` (`src/js/depth-cutter.js:22-44`): one range per loop
index `0 ≤ i < layerCount`. -/
def generateDepthRanges (layerCount : ℕ) (depthOverlap : ℚ) : List DepthRange :=
  (List.range layerCount).map (mkRange layerCount depthOverlap)

/-- The rounded partition boundary `roundTenth(stepSize * j)` shared by
consecutive bins. -/
def chainPoint (layerCount : ℕ) (j : ℕ) : ℚ :=
  roundTenth (100 / (layerCount : ℚ) * j)

theorem generateDepthRanges_length (layerCount : ℕ) (depthOverlap : ℚ) :
    (generateDepthRanges layerCount depthOverlap).length = layerCount := by
  simp [generateDepthRanges]

theorem generateDepthRanges_getD (layerCount : ℕ) (depthOverlap : ℚ) (i : ℕ)
    (h : i < layerCount) :
    (generateDepthRanges layerCount depthOverlap).getD i default =
      mkRange layerCount depthOverlap i := by
  rw [List.getD_eq_getElem _ _ (by simpa [generateDepthRanges] using h)]
  simp [generateDepthRanges]

theorem mem_generateDepthRanges (layerCount : ℕ) (depthOverlap : ℚ)
    (r : DepthRange) :
    r ∈ generateDepthRanges layerCount depthOverlap ↔
      ∃ i, i < layerCount ∧ r = mkRange layerCount depthOverlap i := by
  simp only [generateDepthRanges, List.mem_map, List.mem_range]
  constructor
  · rintro ⟨i, hi, rfl⟩; exact ⟨i, hi, rfl⟩
  · rintro ⟨i, hi, rfl⟩; exact ⟨i, hi, rfl⟩

theorem mkRange_min (layerCount : ℕ) (depthOverlap : ℚ) (i : ℕ) :
    (mkRange layerCount depthOverlap i).min = chainPoint layerCount i := by
  simp [mkRange, chainPoint, roundTenth_idem]

theorem chainPoint_zero (layerCount : ℕ) : chainPoint layerCount 0 = 0 := by
  have := roundTenth_intCast 0
  simp only [chainPoint, Nat.cast_zero, mul_zero]
  simpa using this

theorem chainPoint_self (layerCount : ℕ) (h : 1 ≤ layerCount) :
    chainPoint layerCount layerCount = 100 := by
  unfold chainPoint
  have hne : ((layerCount : ℚ)) ≠ 0 := by positivity
  rw [div_mul_cancel₀ _ hne]
  have := roundTenth_intCast 100
  simpa using this

theorem chainPoint_mono (layerCount : ℕ) {j k : ℕ} (h : j ≤ k) :
    chainPoint layerCount j ≤ chainPoint layerCount k := by
  apply roundTenth_mono
  have h0 : (0 : ℚ) ≤ 100 / (layerCount : ℚ) := by positivity
  have : (j : ℚ) ≤ (k : ℚ) := by exact_mod_cast h
  exact mul_le_mul_of_nonneg_left this h0

theorem chainPoint_nonneg (layerCount : ℕ) (j : ℕ) :
    0 ≤ chainPoint layerCount j := by
  apply roundTenth_nonneg
  positivity

theorem chainPoint_le_100 (layerCount : ℕ) (j : ℕ) (hj : j ≤ layerCount)
    (h1 : 1 ≤ layerCount) :
    chainPoint layerCount j ≤ 100 := by
  have := chainPoint_mono layerCount hj
  rw [chainPoint_self layerCount h1] at this
  exact this

theorem chainPoint_fixed (layerCount : ℕ) (j : ℕ) :
    roundTenth (chainPoint layerCount j) = chainPoint layerCount j :=
  roundTenth_idem _

theorem mkRange_max_final (layerCount : ℕ) (depthOverlap : ℚ)
    (h : 1 ≤ layerCount) :
    (mkRange layerCount depthOverlap (layerCount - 1)).max = 100 := by
  unfold mkRange
  simp only [if_neg (lt_irrefl (layerCount - 1))]
  have hne : ((layerCount : ℚ)) ≠ 0 := by
    have h0 : 0 < layerCount := h
    exact_mod_cast h0.ne'
  have harg : (100 : ℚ) / layerCount * (((layerCount - 1 : ℕ) : ℚ) + 1) = 100 := by
    rw [Nat.cast_sub h]
    push_cast
    field_simp
  have h100 : roundTenth (100 : ℚ) = 100 := by simpa using roundTenth_intCast 100
  rw [harg, h100, h100]

theorem mkRange_max_nonfinal (layerCount : ℕ) (depthOverlap : ℚ) (i : ℕ)
    (h : i < layerCount - 1) :
    (mkRange layerCount depthOverlap i).max =
      roundTenth (min 100 (chainPoint layerCount (i + 1) + depthOverlap)) := by
  unfold mkRange chainPoint
  simp only [if_pos h]
  norm_num

theorem mkRange_max_ge_chain (layerCount : ℕ) (depthOverlap : ℚ) (i : ℕ)
    (hi : i < layerCount) (h1 : 1 ≤ layerCount) (ho : 0 ≤ depthOverlap) :
    chainPoint layerCount (i + 1) ≤ (mkRange layerCount depthOverlap i).max := by
  by_cases hfin : i < layerCount - 1
  · rw [mkRange_max_nonfinal layerCount depthOverlap i hfin]
    have hle : chainPoint layerCount (i + 1) ≤
        min 100 (chainPoint layerCount (i + 1) + depthOverlap) := by
      apply le_min
      · exact chainPoint_le_100 layerCount (i + 1) (by omega) h1
      · linarith
    calc chainPoint layerCount (i + 1)
        = roundTenth (chainPoint layerCount (i + 1)) :=
          (chainPoint_fixed layerCount (i + 1)).symm
      _ ≤ roundTenth (min 100 (chainPoint layerCount (i + 1) + depthOverlap)) :=
          roundTenth_mono hle
  · have hieq : i = layerCount - 1 := by omega
    subst hieq
    rw [mkRange_max_final layerCount depthOverlap h1]
    exact chainPoint_le_100 layerCount (layerCount - 1 + 1) (by omega) h1

theorem mkRange_max_le_100 (layerCount : ℕ) (depthOverlap : ℚ) (i : ℕ)
    (hi : i < layerCount) (h1 : 1 ≤ layerCount) :
    (mkRange layerCount depthOverlap i).max ≤ 100 := by
  by_cases hfin : i < layerCount - 1
  · rw [mkRange_max_nonfinal layerCount depthOverlap i hfin]
    have hle : min (100 : ℚ) (chainPoint layerCount (i + 1) + depthOverlap) ≤ 100 :=
      min_le_left _ _
    have h100 : roundTenth (100 : ℚ) = 100 := by
      have := roundTenth_intCast 100
      simpa using this
    calc roundTenth (min 100 (chainPoint layerCount (i + 1) + depthOverlap))
        ≤ roundTenth 100 := roundTenth_mono hle
      _ = 100 := h100
  · have hieq : i = layerCount - 1 := by omega
    subst hieq
    rw [mkRange_max_final layerCount depthOverlap h1]

theorem mkRange_min_le_max (layerCount : ℕ) (depthOverlap : ℚ) (i : ℕ)
    (hi : i < layerCount) (h1 : 1 ≤ layerCount) (ho : 0 ≤ depthOverlap) :
    (mkRange layerCount depthOverlap i).min ≤
      (mkRange layerCount depthOverlap i).max := by
  rw [mkRange_min]
  calc chainPoint layerCount i
      ≤ chainPoint layerCount (i + 1) := chainPoint_mono layerCount (by omega)
    _ ≤ (mkRange layerCount depthOverlap i).max :=
        mkRange_max_ge_chain layerCount depthOverlap i hi h1 ho

example : generateDepthRanges 0 1 = [] := by simp [generateDepthRanges]

example : mkRange 2 0 0 = ⟨0, 50⟩ := by
  norm_num [mkRange, roundTenth, jsRound]

example : mkRange 2 0 1 = ⟨50, 100⟩ := by
  norm_num [mkRange, roundTenth, jsRound]

example : mkRange 1001 0 500 = ⟨50, 50⟩ := by
  norm_num [mkRange, roundTenth, jsRound]

/-- Locating a value inside a chain of boundaries. -/
theorem exists_chain_interval (f : ℕ → ℚ) :
    ∀ (N : ℕ) (q : ℚ), f 0 ≤ q → q < f N → ∃ i, i < N ∧ f i ≤ q ∧ q < f (i + 1) := by
  intro N
  induction N with
  | zero => intro q h0 hN; exact absurd hN (not_lt.mpr h0)
  | succ n ih =>
    intro q h0 hN
    by_cases h : q < f n
    · obtain ⟨i, hi, hlo, hhi⟩ := ih q h0 h
      exact ⟨i, by omega, hlo, hhi⟩
    · exact ⟨n, by omega, not_lt.mp h, hN⟩

theorem getD_range_map {α : Type} (f : ℕ → α) (n i : ℕ) (d : α) (h : i < n) :
    ((List.range n).map f).getD i d = f i := by
  rw [List.getD_eq_getElem _ _ (by simpa using h)]
  simp

/-- A canvas pixel buffer: RGBA bytes in row-major order, four per pixel, as
returned by `getImageData` (`src/js/image-processor.js`). -/
structure Canvas where
  width : ℕ
  height : ℕ
  data : List ℕ
deriving DecidableEq, Repr

instance : Inhabited Canvas := ⟨⟨0, 0, []⟩⟩

/-- `depthData[y][x]` with JavaScript-style out-of-range access modelled as 0. -/
def depthAt (depthData : List (List ℚ)) (y x : ℕ) : ℚ :=
  (depthData.getD y []).getD x 0

/-- The per-pixel mask test of `cutByDepthRange`
(`src/js/image-processor.js:244`): `depth < minDepth || depth >= maxDepth`
makes the pixel transparent. -/
def isCut (minDepth maxDepth depth : ℚ) : Bool :=
  decide (depth < minDepth) || decide (maxDepth ≤ depth)

/-- `cutByDepthRange` (`src/js/image-processor.js:223-254`): copy the original
image onto a canvas of the same dimensions, then zero the alpha byte of every
pixel whose depth is outside `[minDepth, maxDepth)`.  Bytes the original image
does not cover read as 0 (a fresh canvas is transparent black). -/
def cutByDepthRange (originalImg : Canvas) (depthData : List (List ℚ))
    (minDepth maxDepth : ℚ) : Canvas :=
  ⟨originalImg.width, originalImg.height,
    (List.range (originalImg.width * originalImg.height * 4)).map fun index =>
      if index % 4 = 3 ∧
          isCut minDepth maxDepth
            (depthAt depthData (index / 4 / originalImg.width)
              (index / 4 % originalImg.width)) = true then 0
      else originalImg.data.getD index 0⟩

/-- `convertDepthImageToData` (`src/js/image-processor.js:139-173`): per pixel,
read the red channel and rescale `0..255` linearly to `0..100`. -/
def convertDepthImageToData (depthImg : Canvas) : List (List ℚ) :=
  (List.range depthImg.height).map fun y =>
    (List.range depthImg.width).map fun x =>
      let gray := depthImg.data.getD ((y * depthImg.width + x) * 4) 0
      (gray : ℚ) / 255 * 100

/-- `resizeImage` (`src/js/image-processor.js:91-101`): a canvas of the target
dimensions filled by the browser's high-quality resampler.  The resampler
itself is outside the source; it is abstracted as the function `interp`
producing each output byte. -/
def resizeImage (interp : Canvas → ℕ → ℕ) (img : Canvas)
    (targetWidth targetHeight : ℕ) : Canvas :=
  ⟨targetWidth, targetHeight,
    (List.range (targetWidth * targetHeight * 4)).map (interp img)⟩

/-- `checkSizeMatch` (`src/js/image-processor.js:109-111`). -/
def checkSizeMatch (img1 img2 : Canvas) : Bool :=
  img1.width == img2.width && img1.height == img2.height

/-- `autoAdjustDepthImage` (`src/js/image-processor.js:119-132`): when the
sizes match, draw the depth image onto an equal-size canvas (an identity copy
of its bytes); otherwise resample it to the color image's dimensions. -/
def autoAdjustDepthImage (interp : Canvas → ℕ → ℕ)
    (originalImg depthImg : Canvas) : Canvas :=
  if checkSizeMatch originalImg depthImg then
    ⟨depthImg.width, depthImg.height,
      (List.range (depthImg.width * depthImg.height * 4)).map
        fun index => depthImg.data.getD index 0⟩
  else
    resizeImage interp depthImg originalImg.width originalImg.height

/-- Is an opaque pixel of `c` within Chebyshev distance `bw` of `(x, y)`? -/
def opaqueNear (c : Canvas) (bw : ℕ) (x y : ℕ) : Bool :=
  (List.range c.height).any fun j =>
    (List.range c.width).any fun i =>
      decide (x ≤ i + bw) && decide (i ≤ x + bw) &&
      decide (y ≤ j + bw) && decide (j ≤ y + bw) &&
      decide (0 < c.data.getD ((j * c.width + i) * 4 + 3) 0)

/-- Modelled from the spec: `BrowserImageProcessor.addBorder` is invoked by the
layer loop (`src/js/depth-cutter.js:102`) but its implementation is not present
in the inspected source.  Per the spec it is a silhouette dilation that grows
the opaque region outward by `borderWidth` pixels with an isotropic kernel; we
use a square (Chebyshev-ball) structuring element and extend the original
pixel colors, making every pixel near an opaque pixel fully opaque. -/
def addBorder (c : Canvas) (borderWidth : ℕ) : Canvas :=
  ⟨c.width, c.height,
    (List.range (c.width * c.height * 4)).map fun index =>
      if index % 4 = 3 then
        let a := c.data.getD index 0
        if 0 < a then a
        else if opaqueNear c borderWidth (index / 4 % c.width)
            (index / 4 / c.width) then 255
        else a
      else c.data.getD index 0⟩

/-- Filename scheme of `process` (`src/js/depth-cutter.js:106`):
zero-pad the layer index to four digits and append the extension. -/
def layerFilename (i : ℕ) : String :=
  let s := toString i
  String.mk (List.replicate (4 - s.length) '0') ++ s ++ ".png"

/-- One entry pushed onto `this.results`
(`src/js/depth-cutter.js:116-125`). -/
structure LayerResult where
  layer : ℕ
  depthRange : DepthRange
  filename : String
  canvas : Canvas
  size : ℕ
deriving DecidableEq, Repr

instance : Inhabited LayerResult := ⟨⟨0, default, "", default, 0⟩⟩

/-- The canvas produced for one range inside the loop of `process`
(`src/js/depth-cutter.js:97-103`): mask by depth range, then apply the border
pass when `borderWidth > 0`. -/
def pipelineCanvas (originalImg : Canvas) (depthData : List (List ℚ))
    (borderWidth : ℕ) (range : DepthRange) : Canvas :=
  let resultCanvas := cutByDepthRange originalImg depthData range.min range.max
  if 0 < borderWidth then addBorder resultCanvas borderWidth else resultCanvas

/-- One iteration of the layer loop of `process`
(`src/js/depth-cutter.js:87-126`).  `encode` abstracts `canvasToBlob`, the one
fallible step (`src/js/image-processor.js:263-273`), returning the blob size
on success and nothing when the browser fails to encode. -/
def processLayer (originalImg : Canvas) (depthData : List (List ℚ))
    (borderWidth : ℕ) (encode : Canvas → Option ℕ) (i : ℕ)
    (range : DepthRange) : Except String LayerResult :=
  let c := pipelineCanvas originalImg depthData borderWidth range
  match encode c with
  | some size => .ok ⟨i + 1, range, layerFilename i, c, size⟩
  | none => .error "Canvas转换为Blob失败"

/-- The layer loop of `process` with its mutable `this.results` made explicit:
`acc` holds the already-pushed results (newest first).  On a thrown error the
results pushed so far are kept — the catch block
(`src/js/depth-cutter.js:133-136`) rethrows without clearing `this.results`. -/
def processLoop (f : ℕ → DepthRange → Except String LayerResult) :
    List DepthRange → ℕ → List LayerResult →
      List LayerResult × Option String
  | [], _, acc => (acc.reverse, none)
  | r :: rs, i, acc =>
    match f i r with
    | .ok res => processLoop f rs (i + 1) (res :: acc)
    | .error e => (acc.reverse, some e)

/-- `process` (`src/js/depth-cutter.js:53-137`) from the point where
`this.results = []` has been set: run the layer loop over the ranges and
return the final contents of `this.results` together with the error surfaced
by the catch block, if any. -/
def process (originalImg : Canvas) (depthData : List (List ℚ))
    (ranges : List DepthRange) (borderWidth : ℕ)
    (encode : Canvas → Option ℕ) : List LayerResult × Option String :=
  processLoop (processLayer originalImg depthData borderWidth encode) ranges 0 []

/-- `getAllResults` (`src/js/depth-cutter.js:319-321`): returns a copy of
`this.results`. -/
def getAllResults (results : List LayerResult) : List LayerResult :=
  results

theorem processLoop_acc (f : ℕ → DepthRange → Except String LayerResult) :
    ∀ (rs : List DepthRange) (i : ℕ) (acc : List LayerResult),
      processLoop f rs i acc =
        (acc.reverse ++ (processLoop f rs i []).1, (processLoop f rs i []).2) := by
  intro rs
  induction rs with
  | nil => intro i acc; simp [processLoop]
  | cons r rs ih =>
    intro i acc
    cases hf : f i r with
    | ok res =>
      simp only [processLoop, hf]
      rw [ih (i + 1) (res :: acc), ih (i + 1) [res]]
      simp
    | error e => simp [processLoop, hf]

/-- When every iteration succeeds, the loop produces one result per range, in
order, and no error. -/
theorem processLoop_elem (f : ℕ → DepthRange → Except String LayerResult)
    (g : ℕ → DepthRange → LayerResult)
    (hfg : ∀ i r, f i r = .ok (g i r)) :
    ∀ (rs : List DepthRange) (i : ℕ),
      processLoop f rs i [] =
        ((List.range rs.length).map (fun j => g (i + j) (rs.getD j default)),
          none) := by
  intro rs
  induction rs with
  | nil => intro i; simp [processLoop]
  | cons r rs ih =>
    intro i
    simp only [processLoop, hfg i r]
    rw [processLoop_acc, ih (i + 1)]
    refine Prod.ext ?_ rfl
    simp only [List.length_cons, List.range_succ_eq_map, List.map_cons,
      List.map_map, List.reverse_cons, List.reverse_nil, List.nil_append,
      List.singleton_append, List.cons.injEq]
    constructor
    · simp [List.getD]
    · apply List.map_congr_left
      intro j hj
      simp only [Function.comp_apply]
      have h1 : i + 1 + j = i + (j + 1) := by omega
      rw [h1]
      rfl

/-- When iteration `k` fails and all earlier iterations succeed, the loop
keeps the `k` already-produced results and surfaces the error. -/
theorem processLoop_retain (f : ℕ → DepthRange → Except String LayerResult) :
    ∀ (rs : List DepthRange) (i k : ℕ) (e : String),
      k < rs.length →
      (∀ j, j < k → ∃ out, f (i + j) (rs.getD j default) = .ok out) →
      f (i + k) (rs.getD k default) = .error e →
      (processLoop f rs i []).1.length = k ∧
        (processLoop f rs i []).2 = some e := by
  intro rs
  induction rs with
  | nil => intro i k e hk; simp at hk
  | cons r rs ih =>
    intro i k e hk hsucc hfail
    cases k with
    | zero =>
      have hr : f i r = .error e := by simpa using hfail
      simp [processLoop, hr]
    | succ k' =>
      obtain ⟨out, hout⟩ := hsucc 0 (by omega)
      have hr : f i r = .ok out := by simpa using hout
      simp only [processLoop, hr]
      rw [processLoop_acc]
      have ih' := ih (i + 1) k' e (by simpa using hk)
        (fun j hj => by
          have := hsucc (j + 1) (by omega)
          simpa [Nat.add_assoc, Nat.add_comm 1 j] using this)
        (by
          have h1 : i + 1 + k' = i + (k' + 1) := by omega
          rw [h1]
          simpa using hfail)
      simp [ih'.1, ih'.2]

theorem isCut_eq_false_iff (a b d : ℚ) :
    isCut a b d = false ↔ a ≤ d ∧ d < b := by
  simp [isCut, not_lt, not_le, and_comm]

theorem isCut_eq_true_iff (a b d : ℚ) :
    isCut a b d = true ↔ d < a ∨ b ≤ d := by
  simp [isCut]

/-- With zero overlap every bin's `max` is the next chain boundary. -/
theorem mkRange_zero_max (layerCount : ℕ) (i : ℕ) (hi : i < layerCount)
    (h1 : 1 ≤ layerCount) :
    (mkRange layerCount 0 i).max = chainPoint layerCount (i + 1) := by
  by_cases hfin : i < layerCount - 1
  · rw [mkRange_max_nonfinal layerCount 0 i hfin]
    have hle : chainPoint layerCount (i + 1) ≤ 100 :=
      chainPoint_le_100 layerCount (i + 1) (by omega) h1
    rw [add_zero, min_eq_right hle, chainPoint_fixed]
  · have hieq : i = layerCount - 1 := by omega
    subst hieq
    rw [mkRange_max_final layerCount 0 h1]
    have h2 : layerCount - 1 + 1 = layerCount := by omega
    rw [h2, chainPoint_self layerCount h1]

/-- C3: for every layerCount `N ≥ 1` with overlap 0, the partitioner returns
exactly `N` ranges in ascending order whose boundaries are contiguous
(`range[i].max = range[i+1].min`), with `range[0].min = 0` and
`range[N-1].max = 100`, so their union covers `[0, 100]`. -/
theorem spec_C3_zero_overlap_partition (N : ℕ) (hN : 1 ≤ N) :
    (generateDepthRanges N 0).length = N ∧
    ((generateDepthRanges N 0).getD 0 default).min = 0 ∧
    ((generateDepthRanges N 0).getD (N - 1) default).max = 100 ∧
    (∀ i, i + 1 < N →
      ((generateDepthRanges N 0).getD i default).max =
        ((generateDepthRanges N 0).getD (i + 1) default).min) ∧
    (∀ i, i + 1 < N →
      ((generateDepthRanges N 0).getD i default).min ≤
        ((generateDepthRanges N 0).getD (i + 1) default).min) ∧
    (∀ q : ℚ, 0 ≤ q → q ≤ 100 →
      ∃ r ∈ generateDepthRanges N 0, r.min ≤ q ∧ q ≤ r.max) := by
  refine ⟨generateDepthRanges_length N 0, ?_, ?_, ?_, ?_, ?_⟩
  · rw [generateDepthRanges_getD N 0 0 (by omega), mkRange_min, chainPoint_zero]
  · rw [generateDepthRanges_getD N 0 (N - 1) (by omega),
      mkRange_max_final N 0 hN]
  · intro i hi
    rw [generateDepthRanges_getD N 0 i (by omega),
      generateDepthRanges_getD N 0 (i + 1) (by omega),
      mkRange_zero_max N i (by omega) hN, mkRange_min]
  · intro i hi
    rw [generateDepthRanges_getD N 0 i (by omega),
      generateDepthRanges_getD N 0 (i + 1) (by omega),
      mkRange_min, mkRange_min]
    exact chainPoint_mono N (by omega)
  · intro q hq0 hq100
    by_cases hlt : q < 100
    · obtain ⟨i, hiN, hlo, hhi⟩ := exists_chain_interval (chainPoint N) N q
        (by rw [chainPoint_zero]; exact hq0)
        (by rw [chainPoint_self N hN]; exact hlt)
      refine ⟨mkRange N 0 i,
        (mem_generateDepthRanges N 0 _).mpr ⟨i, hiN, rfl⟩, ?_, ?_⟩
      · rw [mkRange_min]; exact hlo
      · rw [mkRange_zero_max N i hiN hN]; exact le_of_lt hhi
    · have hq : q = 100 := le_antisymm hq100 (not_lt.mp hlt)
      refine ⟨mkRange N 0 (N - 1),
        (mem_generateDepthRanges N 0 _).mpr ⟨N - 1, by omega, rfl⟩, ?_, ?_⟩
      · rw [mkRange_min, hq]
        exact chainPoint_le_100 N (N - 1) (by omega) hN
      · rw [mkRange_max_final N 0 hN, hq]

theorem spec_C3_witness : (generateDepthRanges 4 0).length = 4 :=
  (spec_C3_zero_overlap_partition 4 (by norm_num)).1

/-- C6 (amended): every range satisfies `0 ≤ min ≤ max ≤ 100 ≤ 100 + overlap`;
strictness `min < max` fails for layer counts above 1000 (see the
counterexample), so the bound holds with `≤`. -/
theorem spec_C6_amended_bounds (N : ℕ) (o : ℚ) (hN : 1 ≤ N) (ho : 0 ≤ o) :
    ∀ r ∈ generateDepthRanges N o,
      0 ≤ r.min ∧ r.min ≤ r.max ∧ r.max ≤ 100 ∧ r.max ≤ 100 + o := by
  intro r hr
  obtain ⟨i, hi, rfl⟩ := (mem_generateDepthRanges N o r).mp hr
  refine ⟨?_, mkRange_min_le_max N o i hi hN ho,
    mkRange_max_le_100 N o i hi hN, ?_⟩
  · rw [mkRange_min]; exact chainPoint_nonneg N i
  · have := mkRange_max_le_100 N o i hi hN
    linarith

/-- C6 counterexample: at `layerCount = 1001`, `overlap = 0`, range 500
degenerates to `min = max = 50`, refuting `min < max`. -/
theorem spec_C6_counterexample :
    (generateDepthRanges 1001 0).getD 500 default = ⟨50, 50⟩ ∧
    ¬ ((generateDepthRanges 1001 0).getD 500 default).min <
        ((generateDepthRanges 1001 0).getD 500 default).max := by
  have h : (generateDepthRanges 1001 0).getD 500 default = mkRange 1001 0 500 :=
    generateDepthRanges_getD 1001 0 500 (by norm_num)
  have h2 : mkRange 1001 0 500 = ⟨50, 50⟩ := by
    norm_num [mkRange, roundTenth, jsRound]
  rw [h, h2]
  exact ⟨rfl, lt_irrefl _⟩

theorem spec_C6_witness :
    0 ≤ (mkRange 8 1 0).min ∧ (mkRange 8 1 0).max ≤ 100 := by
  have hmem : mkRange 8 1 0 ∈ generateDepthRanges 8 1 :=
    (mem_generateDepthRanges 8 1 _).mpr ⟨0, by norm_num, rfl⟩
  have h := spec_C6_amended_bounds 8 1 (by norm_num) zero_le_one _ hmem
  exact ⟨h.1, h.2.2.1⟩

/-- C4 (amended): for overlap a positive multiple of `1/10` (every integer
overlap the application passes qualifies), each non-final `max` is
`min 100 (rawMax + overlap)`, every `min` is unchanged versus the zero-overlap
partition, and the final `max` is exactly 100.  For overlaps below the
one-decimal precision the code's final rounding breaks the formula (see the
counterexample). -/
theorem spec_C4_amended_overlap (N k : ℕ) (hN : 1 ≤ N) (_hk : 1 ≤ k) :
    (∀ i, i < N →
      ((generateDepthRanges N ((k : ℚ) / 10)).getD i default).min =
        ((generateDepthRanges N 0).getD i default).min) ∧
    (∀ i, i + 1 < N →
      ((generateDepthRanges N ((k : ℚ) / 10)).getD i default).max =
        min 100 (((generateDepthRanges N 0).getD i default).max +
          (k : ℚ) / 10)) ∧
    ((generateDepthRanges N ((k : ℚ) / 10)).getD (N - 1) default).max = 100 := by
  refine ⟨?_, ?_, ?_⟩
  · intro i hi
    rw [generateDepthRanges_getD N ((k : ℚ) / 10) i hi,
      generateDepthRanges_getD N 0 i hi, mkRange_min, mkRange_min]
  · intro i hi
    have hiN : i < N := by omega
    have hfin : i < N - 1 := by omega
    rw [generateDepthRanges_getD N ((k : ℚ) / 10) i hiN,
      generateDepthRanges_getD N 0 i hiN,
      mkRange_max_nonfinal N ((k : ℚ) / 10) i hfin,
      mkRange_zero_max N i hiN hN]
    obtain ⟨m, hm⟩ := roundTenth_exists_int (100 / (N : ℚ) * ((i + 1 : ℕ) : ℚ))
    have hcp : chainPoint N (i + 1) = (m : ℚ) / 10 := hm
    by_cases hle : chainPoint N (i + 1) + (k : ℚ) / 10 ≤ 100
    · rw [min_eq_right hle]
      have hsum : chainPoint N (i + 1) + (k : ℚ) / 10 =
          ((m + (k : ℤ) : ℤ) : ℚ) / 10 := by
        rw [hcp]; push_cast; ring
      rw [hsum, roundTenth_int_div]
    · have hge : (100 : ℚ) ≤ chainPoint N (i + 1) + (k : ℚ) / 10 :=
        le_of_not_le hle
      rw [min_eq_left hge]
      simpa using roundTenth_intCast 100
  · rw [generateDepthRanges_getD N ((k : ℚ) / 10) (N - 1) (by omega)]
    exact mkRange_max_final N ((k : ℚ) / 10) hN

/-- C4 counterexample: at `layerCount = 2`, `overlap = 1/20` the code rounds
`min(100, 50 + 1/20)` to one decimal, yielding `50.1` instead of the claimed
`50.05`. -/
theorem spec_C4_counterexample :
    ((generateDepthRanges 2 (1 / 20)).getD 0 default).max ≠
      min 100 (((generateDepthRanges 2 0).getD 0 default).max + 1 / 20) := by
  rw [generateDepthRanges_getD 2 (1 / 20) 0 (by norm_num),
    generateDepthRanges_getD 2 0 0 (by norm_num)]
  have h1 : (mkRange 2 (1 / 20) 0).max = 501 / 10 := by
    simp only [mkRange]
    norm_num [roundTenth, jsRound, min_def]
  have h2 : (mkRange 2 0 0).max = 50 := by
    simp only [mkRange]
    norm_num [roundTenth, jsRound, min_def]
  rw [h1, h2, min_def]
  norm_num

theorem spec_C4_witness :
    ((generateDepthRanges 2 (((10 : ℕ) : ℚ) / 10)).getD (2 - 1) default).max =
      100 :=
  (spec_C4_amended_overlap 2 10 (by norm_num) (by norm_num)).2.2

/-- C1 (amended): with `layerCount ≥ 1` and `overlap ≥ 0`, every depth value
in `[0, 100)` is accepted by the mask predicate of at least one produced
range, but a depth value of exactly 100 is rejected by every range, the final
layer included — the mask's `depth >= max` test excludes `max = 100`. -/
theorem spec_C1_amended_coverage (N : ℕ) (o : ℚ) (hN : 1 ≤ N) (ho : 0 ≤ o) :
    (∀ d : ℚ, 0 ≤ d → d < 100 →
      ∃ r ∈ generateDepthRanges N o, isCut r.min r.max d = false) ∧
    (∀ r ∈ generateDepthRanges N o, isCut r.min r.max 100 = true) := by
  constructor
  · intro d hd0 hd100
    obtain ⟨i, hiN, hlo, hhi⟩ := exists_chain_interval (chainPoint N) N d
      (by rw [chainPoint_zero]; exact hd0)
      (by rw [chainPoint_self N hN]; exact hd100)
    refine ⟨mkRange N o i,
      (mem_generateDepthRanges N o _).mpr ⟨i, hiN, rfl⟩, ?_⟩
    rw [isCut_eq_false_iff]
    constructor
    · rw [mkRange_min]; exact hlo
    · exact lt_of_lt_of_le hhi (mkRange_max_ge_chain N o i hiN hN ho)
  · intro r hr
    obtain ⟨i, hi, rfl⟩ := (mem_generateDepthRanges N o r).mp hr
    rw [isCut_eq_true_iff]
    right
    exact mkRange_max_le_100 N o i hi hN

/-- C1 counterexample: with `layerCount = 1`, `overlap = 0`, the single
produced range is `[0, 100)` and its mask rejects depth 100, so a pixel of
depth exactly 100 is transparent in every layer, the final one included. -/
theorem spec_C1_counterexample :
    generateDepthRanges 1 0 = [⟨0, 100⟩] ∧
    (generateDepthRanges 1 0).all (fun r => isCut r.min r.max 100) = true := by
  have h : generateDepthRanges 1 0 = [⟨0, 100⟩] := by
    simp only [generateDepthRanges, List.range_succ, List.range_zero,
      List.nil_append, List.map_cons, List.map_nil]
    norm_num [mkRange, roundTenth, jsRound]
  refine ⟨h, ?_⟩
  rw [h]
  norm_num [isCut]

theorem spec_C1_witness :
    isCut (mkRange 1 0 0).min (mkRange 1 0 0).max 100 = true := by
  have hmem : mkRange 1 0 0 ∈ generateDepthRanges 1 0 :=
    (mem_generateDepthRanges 1 0 _).mpr ⟨0, by norm_num, rfl⟩
  exact (spec_C1_amended_coverage 1 0 (by norm_num) le_rfl).2 _ hmem

theorem cut_data_getD (originalImg : Canvas) (depthData : List (List ℚ))
    (a b : ℚ) (index : ℕ)
    (h : index < originalImg.width * originalImg.height * 4) :
    (cutByDepthRange originalImg depthData a b).data.getD index 0 =
      if index % 4 = 3 ∧
          isCut a b (depthAt depthData (index / 4 / originalImg.width)
            (index / 4 % originalImg.width)) = true
      then 0 else originalImg.data.getD index 0 := by
  simp only [cutByDepthRange]
  rw [getD_range_map _ _ _ _ h]

theorem pixel_index_lt (w h x y : ℕ) (hx : x < w) (hy : y < h) :
    (y * w + x) * 4 + 3 < w * h * 4 := by
  have h1 : y * w + x < w * h := by
    calc y * w + x < y * w + w := by omega
      _ = (y + 1) * w := by ring
      _ ≤ h * w := Nat.mul_le_mul_right w (by omega)
      _ = w * h := Nat.mul_comm h w
  omega

theorem pixel_div_w (w x y : ℕ) (hx : x < w) : (y * w + x) / w = y := by
  rw [Nat.add_comm, Nat.add_mul_div_right _ _ (by omega : 0 < w),
    Nat.div_eq_of_lt hx, Nat.zero_add]

theorem pixel_mod_w (w x y : ℕ) (hx : x < w) : (y * w + x) % w = x := by
  rw [Nat.add_comm, Nat.add_mul_mod_self_right, Nat.mod_eq_of_lt hx]

/-- C2 (amended): `cutByDepthRange` zeroes a pixel's alpha exactly when its
depth is `< range.min` or `>= range.max`, uniformly for every range — there is
no exception accepting depth 100 in the final range; otherwise the original
alpha byte is kept. -/
theorem spec_C2_amended_mask (originalImg : Canvas)
    (depthData : List (List ℚ)) (minDepth maxDepth : ℚ) (x y : ℕ)
    (hx : x < originalImg.width) (hy : y < originalImg.height) :
    ((depthAt depthData y x < minDepth ∨ maxDepth ≤ depthAt depthData y x) →
      (cutByDepthRange originalImg depthData minDepth maxDepth).data.getD
        ((y * originalImg.width + x) * 4 + 3) 0 = 0) ∧
    ((minDepth ≤ depthAt depthData y x ∧ depthAt depthData y x < maxDepth) →
      (cutByDepthRange originalImg depthData minDepth maxDepth).data.getD
        ((y * originalImg.width + x) * 4 + 3) 0 =
        originalImg.data.getD ((y * originalImg.width + x) * 4 + 3) 0) := by
  have hlt := pixel_index_lt originalImg.width originalImg.height x y hx hy
  have hd := cut_data_getD originalImg depthData minDepth maxDepth _ hlt
  have hdiv4 : ((y * originalImg.width + x) * 4 + 3) / 4 =
      y * originalImg.width + x := by omega
  have hmod4 : ((y * originalImg.width + x) * 4 + 3) % 4 = 3 := by omega
  rw [hdiv4, hmod4, pixel_div_w _ _ _ hx, pixel_mod_w _ _ _ hx] at hd
  constructor
  · intro hcut
    rw [hd, if_pos ⟨rfl, (isCut_eq_true_iff _ _ _).mpr hcut⟩]
  · intro hin
    have hfalse : isCut minDepth maxDepth (depthAt depthData y x) = false :=
      (isCut_eq_false_iff _ _ _).mpr hin
    rw [hd, if_neg]
    rintro ⟨-, hc⟩
    rw [hfalse] at hc
    exact Bool.false_ne_true hc

/-- C2 counterexample: the final range of the two-layer partition is
`[50, 100)`; a pixel of depth exactly 100 has its alpha set to 0 there, not
left untouched as the claimed final-range exception would require. -/
theorem spec_C2_counterexample :
    (generateDepthRanges 2 0).getD 1 default = ⟨50, 100⟩ ∧
    (cutByDepthRange ⟨1, 1, [1, 2, 3, 255]⟩ [[(100 : ℚ)]] 50 100).data.getD
      3 0 = 0 := by
  constructor
  · rw [generateDepthRanges_getD 2 0 1 (by norm_num)]
    norm_num [mkRange, roundTenth, jsRound, min_def]
  · have h := cut_data_getD ⟨1, 1, [1, 2, 3, 255]⟩ [[(100 : ℚ)]] 50 100 3
      (by norm_num)
    rw [h, if_pos]
    exact ⟨by norm_num, by norm_num [isCut, depthAt]⟩

theorem spec_C2_witness :
    (cutByDepthRange ⟨1, 1, [5, 6, 7, 8]⟩ [[(10 : ℚ)]] 0 50).data.getD 3 0 =
      (Canvas.mk 1 1 [5, 6, 7, 8]).data.getD 3 0 := by
  apply (spec_C2_amended_mask ⟨1, 1, [5, 6, 7, 8]⟩ [[(10 : ℚ)]] 0 50 0 0
    (by norm_num) (by norm_num)).2
  constructor
  · norm_num [depthAt]
  · norm_num [depthAt]

/-- C10: masking modifies only alpha bytes — every non-alpha byte of the
output equals the source byte, every alpha byte is either the source alpha or
0, and the output buffer has exactly the color image's dimensions. -/
theorem spec_C10_frame_effect (originalImg : Canvas)
    (depthData : List (List ℚ)) (minDepth maxDepth : ℚ) :
    (cutByDepthRange originalImg depthData minDepth maxDepth).width =
      originalImg.width ∧
    (cutByDepthRange originalImg depthData minDepth maxDepth).height =
      originalImg.height ∧
    (cutByDepthRange originalImg depthData minDepth maxDepth).data.length =
      originalImg.width * originalImg.height * 4 ∧
    (∀ index, index < originalImg.width * originalImg.height * 4 →
      index % 4 ≠ 3 →
      (cutByDepthRange originalImg depthData minDepth maxDepth).data.getD
        index 0 = originalImg.data.getD index 0) ∧
    (∀ index,
      (cutByDepthRange originalImg depthData minDepth maxDepth).data.getD
        index 0 = originalImg.data.getD index 0 ∨
      (cutByDepthRange originalImg depthData minDepth maxDepth).data.getD
        index 0 = 0) := by
  refine ⟨rfl, rfl, by simp [cutByDepthRange], ?_, ?_⟩
  · intro index hlt hm
    rw [cut_data_getD _ _ _ _ _ hlt, if_neg]
    rintro ⟨h3, -⟩
    exact hm h3
  · intro index
    by_cases hlt : index < originalImg.width * originalImg.height * 4
    · rw [cut_data_getD _ _ _ _ _ hlt]
      by_cases hc : index % 4 = 3 ∧
          isCut minDepth maxDepth
            (depthAt depthData (index / 4 / originalImg.width)
              (index / 4 % originalImg.width)) = true
      · right; rw [if_pos hc]
      · left; rw [if_neg hc]
    · right
      simp only [cutByDepthRange]
      apply List.getD_eq_default
      simp only [List.length_map, List.length_range]
      omega

theorem spec_C10_witness :
    (cutByDepthRange ⟨1, 1, [9, 8, 7, 6]⟩ [[(0 : ℚ)]] 0 50).data.getD 0 0 =
      (Canvas.mk 1 1 [9, 8, 7, 6]).data.getD 0 0 :=
  (spec_C10_frame_effect ⟨1, 1, [9, 8, 7, 6]⟩ [[(0 : ℚ)]] 0 50).2.2.2.1 0
    (by norm_num) (by norm_num)

theorem convert_length (c : Canvas) :
    (convertDepthImageToData c).length = c.height := by
  simp [convertDepthImageToData]

theorem convert_row_length (c : Canvas) (row : List ℚ)
    (h : row ∈ convertDepthImageToData c) : row.length = c.width := by
  simp only [convertDepthImageToData, List.mem_map] at h
  obtain ⟨y, -, rfl⟩ := h
  simp

theorem depthAt_convert (c : Canvas) (y x : ℕ) (hy : y < c.height)
    (hx : x < c.width) :
    depthAt (convertDepthImageToData c) y x =
      ((c.data.getD ((y * c.width + x) * 4) 0 : ℕ) : ℚ) / 255 * 100 := by
  unfold depthAt convertDepthImageToData
  rw [getD_range_map _ _ _ _ hy, getD_range_map _ _ _ _ hx]

theorem autoAdjust_dims (interp : Canvas → ℕ → ℕ)
    (originalImg depthImg : Canvas) :
    (autoAdjustDepthImage interp originalImg depthImg).width =
      originalImg.width ∧
    (autoAdjustDepthImage interp originalImg depthImg).height =
      originalImg.height := by
  unfold autoAdjustDepthImage
  by_cases h : checkSizeMatch originalImg depthImg = true
  · rw [if_pos h]
    simp only [checkSizeMatch, Bool.and_eq_true, beq_iff_eq] at h
    exact ⟨h.1.symm, h.2.symm⟩
  · rw [if_neg h]
    exact ⟨rfl, rfl⟩

theorem autoAdjust_data_le (interp : Canvas → ℕ → ℕ)
    (originalImg depthImg : Canvas)
    (hinterp : ∀ c i, interp c i ≤ 255)
    (hdata : ∀ v ∈ depthImg.data, v ≤ 255) :
    ∀ i, (autoAdjustDepthImage interp originalImg depthImg).data.getD i 0 ≤
      255 := by
  intro i
  unfold autoAdjustDepthImage
  by_cases h : checkSizeMatch originalImg depthImg = true
  · rw [if_pos h]
    simp only
    by_cases hi : i < depthImg.width * depthImg.height * 4
    · rw [getD_range_map _ _ _ _ hi]
      by_cases hj : i < depthImg.data.length
      · rw [List.getD_eq_getElem _ _ hj]
        exact hdata _ (List.getElem_mem hj)
      · rw [List.getD_eq_default _ _ (by omega)]
        omega
    · rw [List.getD_eq_default]
      · omega
      · simp only [List.length_map, List.length_range]
        omega
  · rw [if_neg h]
    unfold resizeImage
    simp only
    by_cases hi : i < originalImg.width * originalImg.height * 4
    · rw [getD_range_map _ _ _ _ hi]
      exact hinterp _ _
    · rw [List.getD_eq_default]
      · omega
      · simp only [List.length_map, List.length_range]
        omega

/-- C5: the extracted depth field has exactly the color image's dimensions
(the depth image is resampled to those dimensions first when they differ, used
as-is when they match), and each entry equals `(redChannel / 255) * 100`, a
value in `[0, 100]`, with no clamping applied. -/
theorem spec_C5_extractor (interp : Canvas → ℕ → ℕ)
    (originalImg depthImg : Canvas)
    (hinterp : ∀ c i, interp c i ≤ 255)
    (hdata : ∀ v ∈ depthImg.data, v ≤ 255) :
    (autoAdjustDepthImage interp originalImg depthImg).width =
      originalImg.width ∧
    (autoAdjustDepthImage interp originalImg depthImg).height =
      originalImg.height ∧
    (convertDepthImageToData
      (autoAdjustDepthImage interp originalImg depthImg)).length =
      originalImg.height ∧
    (∀ row ∈ convertDepthImageToData
        (autoAdjustDepthImage interp originalImg depthImg),
      row.length = originalImg.width) ∧
    (∀ y x, y < originalImg.height → x < originalImg.width →
      depthAt (convertDepthImageToData
          (autoAdjustDepthImage interp originalImg depthImg)) y x =
        (((autoAdjustDepthImage interp originalImg depthImg).data.getD
          ((y * (autoAdjustDepthImage interp originalImg depthImg).width + x)
            * 4) 0 : ℕ) : ℚ) / 255 * 100 ∧
      0 ≤ depthAt (convertDepthImageToData
          (autoAdjustDepthImage interp originalImg depthImg)) y x ∧
      depthAt (convertDepthImageToData
          (autoAdjustDepthImage interp originalImg depthImg)) y x ≤ 100) := by
  obtain ⟨hw, hh⟩ := autoAdjust_dims interp originalImg depthImg
  refine ⟨hw, hh, ?_, ?_, ?_⟩
  · rw [convert_length, hh]
  · intro row hrow
    rw [convert_row_length _ _ hrow, hw]
  · intro y x hy hx
    have hy' : y < (autoAdjustDepthImage interp originalImg depthImg).height :=
      by rw [hh]; exact hy
    have hx' : x < (autoAdjustDepthImage interp originalImg depthImg).width :=
      by rw [hw]; exact hx
    have heq := depthAt_convert _ y x hy' hx'
    refine ⟨heq, ?_, ?_⟩
    · rw [heq]; positivity
    · rw [heq]
      have hb := autoAdjust_data_le interp originalImg depthImg hinterp hdata
        ((y * (autoAdjustDepthImage interp originalImg depthImg).width + x)
          * 4)
      have hcast : (((autoAdjustDepthImage interp originalImg
          depthImg).data.getD
          ((y * (autoAdjustDepthImage interp originalImg depthImg).width + x)
            * 4) 0 : ℕ) : ℚ) ≤ 255 := by exact_mod_cast hb
      have h255 : (((autoAdjustDepthImage interp originalImg
          depthImg).data.getD
          ((y * (autoAdjustDepthImage interp originalImg depthImg).width + x)
            * 4) 0 : ℕ) : ℚ) / 255 ≤ 1 := by
        rw [div_le_one (by norm_num)]
        exact hcast
      have := mul_le_mul_of_nonneg_right h255 (by norm_num : (0 : ℚ) ≤ 100)
      simpa using this

theorem spec_C5_witness :
    (autoAdjustDepthImage (fun _ _ => 0)
      (Canvas.mk 2 1 [1, 2, 3, 4, 5, 6, 7, 8])
      (Canvas.mk 1 1 [255, 0, 0, 255])).width = 2 :=
  (spec_C5_extractor (fun _ _ => 0)
    (Canvas.mk 2 1 [1, 2, 3, 4, 5, 6, 7, 8]) (Canvas.mk 1 1 [255, 0, 0, 255])
    (fun _ _ => Nat.zero_le 255) (by decide)).1

theorem ranges_two_eval : generateDepthRanges 2 0 = [⟨0, 50⟩, ⟨50, 100⟩] := by
  simp only [generateDepthRanges, List.range_succ, List.range_zero,
    List.nil_append, List.map_append, List.map_cons, List.map_nil]
  norm_num [mkRange, roundTenth, jsRound, min_def]

/-- An encoder that fails exactly on fully transparent test pixels, used to
exercise a mid-loop `canvasToBlob` failure. -/
def encTest (c : Canvas) : Option ℕ :=
  if c.data.getD 3 0 == 0 then none else some 1

theorem cut_eval_low :
    cutByDepthRange ⟨1, 1, [9, 9, 9, 7]⟩ [[(10 : ℚ)]] 0 50 =
      ⟨1, 1, [9, 9, 9, 7]⟩ := by
  simp only [cutByDepthRange, Canvas.mk.injEq, true_and]
  norm_num [List.range_succ, depthAt, isCut]

theorem cut_eval_high :
    cutByDepthRange ⟨1, 1, [9, 9, 9, 7]⟩ [[(10 : ℚ)]] 50 100 =
      ⟨1, 1, [9, 9, 9, 0]⟩ := by
  simp only [cutByDepthRange, Canvas.mk.injEq, true_and]
  norm_num [List.range_succ, depthAt, isCut]

theorem process_two_eval :
    process ⟨1, 1, [9, 9, 9, 7]⟩ [[(10 : ℚ)]] [⟨0, 50⟩, ⟨50, 100⟩] 0
      encTest =
      ([⟨1, ⟨0, 50⟩, layerFilename 0, ⟨1, 1, [9, 9, 9, 7]⟩, 1⟩],
        some "Canvas转换为Blob失败") := by
  simp only [process, processLoop, processLayer, pipelineCanvas,
    cut_eval_low, cut_eval_high, encTest]
  norm_num

/-- C7 (amended): when the job fails while producing layer `k + 1`, the `k`
already-produced layers are retained in `this.results` — the catch block
rethrows without clearing them, so `getAllResults` still returns them; they
are not discarded. -/
theorem spec_C7_amended_retention (originalImg : Canvas)
    (depthData : List (List ℚ)) (ranges : List DepthRange) (borderWidth : ℕ)
    (encode : Canvas → Option ℕ) (k : ℕ) (hk : k < ranges.length)
    (hsucc : ∀ j, j < k →
      (encode (pipelineCanvas originalImg depthData borderWidth
        (ranges.getD j default))).isSome = true)
    (hfail : encode (pipelineCanvas originalImg depthData borderWidth
      (ranges.getD k default)) = none) :
    (process originalImg depthData ranges borderWidth encode).1.length = k ∧
    (process originalImg depthData ranges borderWidth encode).2 =
      some "Canvas转换为Blob失败" := by
  unfold process
  apply processLoop_retain
  · exact hk
  · intro j hj
    obtain ⟨s, hs⟩ := Option.isSome_iff_exists.mp (hsucc j hj)
    exact ⟨⟨0 + j + 1, ranges.getD j default, layerFilename (0 + j),
      pipelineCanvas originalImg depthData borderWidth (ranges.getD j default),
      s⟩, by simp only [processLayer, hs]⟩
  · simp only [processLayer, hfail]

/-- C7 counterexample: with two ranges and an encoder failing on the second
layer, the job errors but the result collection is not empty — the first
layer survives in `getAllResults`. -/
theorem spec_C7_counterexample :
    (process ⟨1, 1, [9, 9, 9, 7]⟩ [[(10 : ℚ)]] (generateDepthRanges 2 0) 0
      encTest).2.isSome = true ∧
    getAllResults (process ⟨1, 1, [9, 9, 9, 7]⟩ [[(10 : ℚ)]]
      (generateDepthRanges 2 0) 0 encTest).1 ≠ [] := by
  rw [ranges_two_eval, process_two_eval]
  simp [getAllResults]

theorem spec_C7_witness :
    (process ⟨1, 1, [9, 9, 9, 7]⟩ [[(10 : ℚ)]] [⟨0, 50⟩, ⟨50, 100⟩] 0
      encTest).1.length = 1 :=
  (spec_C7_amended_retention ⟨1, 1, [9, 9, 9, 7]⟩ [[(10 : ℚ)]]
    [⟨0, 50⟩, ⟨50, 100⟩] 0 encTest 1 (by norm_num)
    (fun j hj => by
      have hj0 : j = 0 := by omega
      subst hj0
      simp [pipelineCanvas, cut_eval_low, encTest])
    (by simp [pipelineCanvas, cut_eval_high, encTest])).1

/-- C8 (amended): a non-positive layer count is not rejected — there is no
validation anywhere: `generateDepthRanges` returns an empty list and `process`
completes normally with zero layers and no error, instead of raising a
configuration error. -/
theorem spec_C8_amended_no_validation (o : ℚ) (originalImg : Canvas)
    (depthData : List (List ℚ)) (borderWidth : ℕ)
    (encode : Canvas → Option ℕ) :
    generateDepthRanges 0 o = [] ∧
    process originalImg depthData (generateDepthRanges 0 o) borderWidth
      encode = ([], none) := by
  have h : generateDepthRanges 0 o = [] := by simp [generateDepthRanges]
  exact ⟨h, by rw [h]; rfl⟩

/-- C8 counterexample: at `layerCount = 0` the partitioner yields an empty
range list and processing completes with zero layers and no error — no
configuration error is raised. -/
theorem spec_C8_counterexample :
    generateDepthRanges 0 1 = [] ∧
    process ⟨1, 1, [0, 0, 0, 255]⟩ [[(0 : ℚ)]] (generateDepthRanges 0 1) 0
      (fun _ => some 1) = ([], none) := by
  have h : generateDepthRanges 0 1 = [] := by simp [generateDepthRanges]
  exact ⟨h, by rw [h]; rfl⟩

/-- C9 (spec-modelled): with `borderWidth > 0` and a total encoder, processing
applies the silhouette dilation `addBorder` — a total operation — after
masking on every layer and completes normally with the full result set. -/
theorem spec_C9_border_total (originalImg : Canvas)
    (depthData : List (List ℚ)) (ranges : List DepthRange)
    (borderWidth : ℕ) (encode : Canvas → Option ℕ)
    (hbw : 0 < borderWidth)
    (henc : ∀ c, (encode c).isSome = true) :
    (process originalImg depthData ranges borderWidth encode).2 = none ∧
    (process originalImg depthData ranges borderWidth encode).1.length =
      ranges.length ∧
    (∀ j, j < ranges.length →
      ((process originalImg depthData ranges borderWidth encode).1.getD j
        default).canvas =
        addBorder (cutByDepthRange originalImg depthData
          (ranges.getD j default).min (ranges.getD j default).max)
          borderWidth) := by
  have hloop := processLoop_elem
    (processLayer originalImg depthData borderWidth encode)
    (fun i r => ⟨i + 1, r, layerFilename i,
      pipelineCanvas originalImg depthData borderWidth r,
      (encode (pipelineCanvas originalImg depthData borderWidth r)).getD 0⟩)
    (fun i r => by
      obtain ⟨s, hs⟩ := Option.isSome_iff_exists.mp
        (henc (pipelineCanvas originalImg depthData borderWidth r))
      simp only [processLayer, hs, Option.getD_some])
    ranges 0
  unfold process
  rw [hloop]
  refine ⟨rfl, by simp, ?_⟩
  intro j hj
  rw [getD_range_map _ _ _ _ (by simpa using hj)]
  simp only [Nat.zero_add]
  unfold pipelineCanvas
  rw [if_pos hbw]

theorem spec_C9_witness :
    (process ⟨1, 1, [3, 3, 3, 9]⟩ [[(10 : ℚ)]] [⟨0, 50⟩] 1
      (fun _ => some 0)).2 = none :=
  (spec_C9_border_total ⟨1, 1, [3, 3, 3, 9]⟩ [[(10 : ℚ)]] [⟨0, 50⟩] 1
    (fun _ => some 0) (by norm_num) (fun _ => rfl)).1
